import Mathlib

/-!
Verification of the MONAI `FocalLoss` module (`monai/losses/focal_loss.py`).

Tensors are modelled as nested lists of real numbers with explicit shape
metadata; the per-element arithmetic of `FocalLoss.forward` is modelled over
`ℝ`. The stateless pipeline of `forward` (one-hot expansion, background
removal, shape validation, stable binary cross-entropy with logits, class
weighting, focal modulation, voxel-mean and final reduction) is embedded as
a total function into `Except`.
-/

namespace Focal

/-- The logistic sigmoid, the activation `forward` applies implicitly:
`sigmoid i = 1 / (1 + exp (-i))`. -/
noncomputable def sigmoid (x : ℝ) : ℝ := 1 / (1 + Real.exp (-x))

/-- Mathematical value of the collaborator primitive
`torch.nn.functional.logsigmoid`: the logarithm of the sigmoid. -/
noncomputable def logsigmoid (x : ℝ) : ℝ := Real.log (sigmoid x)

/-- `max_val = (-i).clamp(min=0)` from line 122 of the source. -/
noncomputable def maxVal (i : ℝ) : ℝ := max (-i) 0

/-- The numerically-stable binary cross-entropy with logits computed at
line 123 of the source:
`ce = i - i*t + max_val + ((-max_val).exp() + (-i - max_val).exp()).log()`. -/
noncomputable def stableBCE (i t : ℝ) : ℝ :=
  i - i * t + maxVal i + Real.log (Real.exp (-(maxVal i)) + Real.exp (-i - maxVal i))

/-- The textbook binary cross-entropy the spec names as reference:
`-[t*log(sigmoid(i)) + (1-t)*log(1-sigmoid(i))]`. -/
noncomputable def bceRef (i t : ℝ) : ℝ :=
  -(t * Real.log (sigmoid i) + (1 - t) * Real.log (1 - sigmoid i))

/-- The focal modulation factor `(p * gamma).exp()` with
`p = logsigmoid(-i * (t * 2.0 - 1.0))` (lines 149-150 of the source). -/
noncomputable def modFactor (gamma i t : ℝ) : ℝ :=
  Real.exp (logsigmoid (-i * (t * 2 - 1)) * gamma)

section ScalarLemmas

lemma one_add_exp_pos (x : ℝ) : 0 < 1 + Real.exp x := by positivity

/-- The stable `max_val` trick collapses to the softplus `log (1 + exp (-i))`. -/
lemma maxVal_log_eq (i : ℝ) :
    maxVal i + Real.log (Real.exp (-(maxVal i)) + Real.exp (-i - maxVal i)) =
      Real.log (1 + Real.exp (-i)) := by
  have hprod : Real.exp (-(maxVal i)) + Real.exp (-i - maxVal i) =
      Real.exp (-(maxVal i)) * (1 + Real.exp (-i)) := by
    rw [mul_add, mul_one, ← Real.exp_add]
    ring_nf
  rw [hprod, Real.log_mul (Real.exp_ne_zero _) (ne_of_gt (one_add_exp_pos (-i))),
    Real.log_exp]
  ring

/-- Closed form of the stable binary cross-entropy. -/
lemma stableBCE_eq (i t : ℝ) :
    stableBCE i t = i - i * t + Real.log (1 + Real.exp (-i)) := by
  unfold stableBCE
  rw [add_assoc, maxVal_log_eq]

lemma log_sigmoid_eq (i : ℝ) :
    Real.log (sigmoid i) = -Real.log (1 + Real.exp (-i)) := by
  unfold sigmoid
  rw [one_div, Real.log_inv]

lemma one_sub_sigmoid (i : ℝ) :
    1 - sigmoid i = Real.exp (-i) / (1 + Real.exp (-i)) := by
  unfold sigmoid
  field_simp

lemma log_one_sub_sigmoid (i : ℝ) :
    Real.log (1 - sigmoid i) = -i - Real.log (1 + Real.exp (-i)) := by
  rw [one_sub_sigmoid, Real.log_div (Real.exp_ne_zero _)
    (ne_of_gt (one_add_exp_pos (-i))), Real.log_exp]

lemma sigmoid_pos (i : ℝ) : 0 < sigmoid i :=
  div_pos one_pos (one_add_exp_pos (-i))

lemma sigmoid_lt_one (i : ℝ) : sigmoid i < 1 := by
  unfold sigmoid
  rw [div_lt_one (one_add_exp_pos (-i))]
  linarith [Real.exp_pos (-i)]

lemma logsigmoid_neg (x : ℝ) : logsigmoid x < 0 := by
  unfold logsigmoid
  exact Real.log_neg (sigmoid_pos x) (sigmoid_lt_one x)

lemma modFactor_pos (gamma i t : ℝ) : 0 < modFactor gamma i t :=
  Real.exp_pos _

lemma modFactor_le_one {gamma : ℝ} (hg : 0 ≤ gamma) (i t : ℝ) :
    modFactor gamma i t ≤ 1 := by
  unfold modFactor
  rw [Real.exp_le_one_iff]
  exact mul_nonpos_of_nonpos_of_nonneg (logsigmoid_neg _).le hg

lemma stableBCE_nonneg {t : ℝ} (i : ℝ) (h0 : 0 ≤ t) (h1 : t ≤ 1) :
    0 ≤ stableBCE i t := by
  rw [stableBCE_eq]
  rcases le_or_lt 0 i with hi | hi
  · have hlog : 0 ≤ Real.log (1 + Real.exp (-i)) :=
      Real.log_nonneg (by linarith [Real.exp_pos (-i)])
    have : 0 ≤ i * (1 - t) := mul_nonneg hi (by linarith)
    nlinarith
  · have hlog : -i ≤ Real.log (1 + Real.exp (-i)) := by
      have := Real.log_le_log (Real.exp_pos (-i)) (by linarith : Real.exp (-i) ≤ 1 + Real.exp (-i))
      rwa [Real.log_exp] at this
    have : i * t ≤ 0 := mul_nonpos_of_nonpos_of_nonneg hi.le h0
    nlinarith

end ScalarLemmas

/-- A tensor of shape `batch :: channels :: spatialShape`. `data` is indexed
batch-first, then channel; the spatial dimensions are kept flattened
(row-major) in the innermost list, with `spatialShape` recording the original
spatial extents for shape reporting. -/
structure Tensor where
  batch : Nat
  channels : Nat
  spatialShape : List Nat
  data : List (List (List ℝ))

/-- `t.shape` as reported by the tensor engine. -/
def shape (t : Tensor) : List Nat := t.batch :: t.channels :: t.spatialShape

/-- Modelled from the spec: the collaborator `monai.networks.one_hot` (not
part of the sources) expands a class-index tensor of shape `B1H[WD]` into a
one-hot tensor with `numClasses` channels: channel `c` holds 1 exactly where
the stored class index equals `c`. -/
noncomputable def oneHot (t : Tensor) (numClasses : Nat) : Tensor :=
  { batch := t.batch
    channels := numClasses
    spatialShape := t.spatialShape
    data := t.data.map fun bb =>
      (List.range numClasses).map fun c =>
        (bb.headD []).map fun x => if x = (c : ℝ) then 1 else 0 }

/-- Dropping channel 0, `x[:, 1:]` (line 106-107 of the source). -/
def dropChannel0 (t : Tensor) : Tensor :=
  { batch := t.batch
    channels := t.channels - 1
    spatialShape := t.spatialShape
    data := t.data.map fun bb => bb.drop 1 }

/-- `x.reshape(b, n, -1)`: flatten all spatial dimensions into one axis
(lines 115-118 of the source; the data is already stored flattened). -/
def reshape3 (t : Tensor) : Tensor :=
  { batch := t.batch
    channels := t.channels
    spatialShape := [t.spatialShape.prod]
    data := t.data }

/-- The configuration fields stored by `FocalLoss.__init__`. -/
structure FocalLoss where
  include_background : Bool
  to_onehot_y : Bool
  gamma : ℝ
  weight : Option (ℝ ⊕ List ℝ)
  reduction : String

/-- The validation errors `forward` can raise. -/
inductive FocalError where
  | shapeMismatch (targetShape inputShape : List Nat)
  | weightLength
  | weightRange
  | unsupportedReduction (r : String)
deriving DecidableEq

/-- The value returned by `forward`: a `[B, N]` tensor under
`reduction="none"`, a scalar under `"sum"` or `"mean"`. -/
inductive FocalOutput where
  | tensor2 (L : List (List ℝ))
  | scalar (x : ℝ)

/-- The preprocessing of lines 93-107 of the source: optional one-hot
expansion of the target and optional removal of the background channel, each
a warn-and-skip no-op when the prediction has a single channel. Returns the
pair `(input, target)`. -/
noncomputable def preprocess (self : FocalLoss) (input target : Tensor) :
    Tensor × Tensor :=
  let nPredCh := input.channels
  let target := if self.to_onehot_y ∧ nPredCh ≠ 1 then oneHot target nPredCh else target
  if ¬self.include_background ∧ nPredCh ≠ 1 then
    (dropChannel0 input, dropChannel0 target)
  else (input, target)

/-- Ternary analogue of `List.zipWith`, truncating at the shortest list. -/
def zipWith3 (f : α → β → γ → δ) : List α → List β → List γ → List δ
  | a :: as, b :: bs, c :: cs => f a b c :: zipWith3 f as bs cs
  | _, _, _ => []

/-- Elementwise binary map over `[B, N, V]`-shaped nested data. -/
def emap2 (f : ℝ → ℝ → ℝ) (a b : List (List (List ℝ))) : List (List (List ℝ)) :=
  List.zipWith (List.zipWith (List.zipWith f)) a b

/-- Elementwise ternary map over `[B, N, V]`-shaped nested data. -/
def emap3 (f : ℝ → ℝ → ℝ → ℝ) (a b c : List (List (List ℝ))) :
    List (List (List ℝ)) :=
  zipWith3 (zipWith3 (zipWith3 f)) a b c

/-- `tensor.min()` of a 1-D tensor (0 on the empty tensor, which the loss
never builds: `class_weight` always has one entry per scored class). -/
def tmin : List ℝ → ℝ
  | [] => 0
  | x :: xs => xs.foldl min x

/-- `ce * at` where `at` broadcasts the per-class weight vector over the
batch and voxel axes (lines 142-145 of the source). -/
def mulWeight (cw : List ℝ) (d : List (List (List ℝ))) : List (List (List ℝ)) :=
  d.map fun bb => List.zipWith (fun w ch => ch.map fun x => x * w) cw bb

/-- The class-weighting block of lines 125-145 of the source: a scalar weight
is replicated over the `n` classes, a sequence must have length `n`; any
negative entry is rejected; the surviving weight is multiplied into `ce`. -/
noncomputable def applyWeight (w : Option (ℝ ⊕ List ℝ)) (n : Nat)
    (ce : List (List (List ℝ))) : Except FocalError (List (List (List ℝ))) :=
  match w with
  | none => .ok ce
  | some (Sum.inl s) =>
      let cw := List.replicate n s
      if tmin cw < 0 then .error .weightRange
      else .ok (mulWeight cw ce)
  | some (Sum.inr l) =>
      if l.length ≠ n then .error .weightLength
      else if tmin l < 0 then .error .weightRange
      else .ok (mulWeight l ce)

/-- Mean of a 1-D tensor: sum divided by the number of elements. -/
noncomputable def lmean (v : List ℝ) : ℝ := v.sum / (v.length : ℝ)

/-- `torch.mean(x, dim=-1)` on a `[B, N, V]` tensor: the `[B, N]` array of
voxel means (line 150 of the source). -/
noncomputable def voxelMean (d : List (List (List ℝ))) : List (List ℝ) :=
  d.map fun bb => bb.map lmean

/-- `loss.sum()` on a `[B, N]` tensor. -/
def totalSum (L : List (List ℝ)) : ℝ := (L.map List.sum).sum

/-- The number of elements of a `[B, N]` tensor. -/
def numel2 (L : List (List ℝ)) : Nat := (L.map List.length).sum

/-- `loss.mean()` on a `[B, N]` tensor: sum over all elements divided by the
number of elements. -/
noncomputable def meanAll (L : List (List ℝ)) : ℝ := totalSum L / (numel2 L : ℝ)

/-- `FocalLoss.forward` (lines 76-158 of the source), as a total function
into `Except`: preprocessing, exact shape validation, reshape to
`[B, N, V]`, stable binary cross-entropy, optional class weighting, focal
modulation, unconditional voxel-mean, and the final reduction dispatch. -/
noncomputable def forward (self : FocalLoss) (input target : Tensor) :
    Except FocalError FocalOutput :=
  let pt := preprocess self input target
  if shape pt.2 ≠ shape pt.1 then
    .error (.shapeMismatch (shape pt.2) (shape pt.1))
  else
    let i := reshape3 pt.1
    let t := reshape3 pt.2
    let ce := emap2 stableBCE i.data t.data
    match applyWeight self.weight t.channels ce with
    | .error e => .error e
    | .ok ceW =>
        let lossBN := voxelMean
          (emap3 (fun iv tv cv => modFactor self.gamma iv tv * cv) i.data t.data ceW)
        if self.reduction = "sum" then .ok (.scalar (totalSum lossBN))
        else if self.reduction = "none" then .ok (.tensor2 lossBN)
        else if self.reduction = "mean" then .ok (.scalar (meanAll lossBN))
        else .error (.unsupportedReduction self.reduction)

/-- Modelled from the spec: `FocalLoss.__init__` normalizes its `reduction`
argument through the `LossReduction` enum (`monai.utils`, not part of the
sources), whose members are exactly `"none"`, `"mean"` and `"sum"`; an
unrecognized value is rejected at construction time. -/
def mkFocalLoss (include_background to_onehot_y : Bool) (gamma : ℝ)
    (weight : Option (ℝ ⊕ List ℝ)) (reduction : String) : Option FocalLoss :=
  if reduction = "none" ∨ reduction = "mean" ∨ reduction = "sum" then
    some ⟨include_background, to_onehot_y, gamma, weight, reduction⟩
  else none

/-- The final reduction dispatch of lines 152-158 of the source, as a
function of the voxel-meaned `[B, N]` loss tensor. -/
noncomputable def reduceStep (r : String) (L : List (List ℝ)) :
    Except FocalError FocalOutput :=
  if r = "sum" then .ok (.scalar (totalSum L))
  else if r = "none" then .ok (.tensor2 L)
  else if r = "mean" then .ok (.scalar (meanAll L))
  else .error (.unsupportedReduction r)

/-- The spec's `[B, N]` loss tensor: the per-element focal loss averaged
over the voxel axis, before any final reduction is applied
("average over the voxel axis first, always"). -/
noncomputable def voxelMeanLoss (self : FocalLoss) (input target : Tensor) :
    Except FocalError (List (List ℝ)) :=
  let pt := preprocess self input target
  if shape pt.2 ≠ shape pt.1 then
    .error (.shapeMismatch (shape pt.2) (shape pt.1))
  else
    let i := reshape3 pt.1
    let t := reshape3 pt.2
    let ce := emap2 stableBCE i.data t.data
    (applyWeight self.weight t.channels ce).map fun ceW =>
      voxelMean
        (emap3 (fun iv tv cv => modFactor self.gamma iv tv * cv) i.data t.data ceW)

/-- The class-weighted binary-cross-entropy-with-logits loss with the same
preprocessing, validation, weighting, voxel-mean and reduction as `forward`,
but without the focal modulation factor. -/
noncomputable def bceForward (self : FocalLoss) (input target : Tensor) :
    Except FocalError FocalOutput :=
  let pt := preprocess self input target
  if shape pt.2 ≠ shape pt.1 then
    .error (.shapeMismatch (shape pt.2) (shape pt.1))
  else
    let i := reshape3 pt.1
    let t := reshape3 pt.2
    let ce := emap2 stableBCE i.data t.data
    match applyWeight self.weight t.channels ce with
    | .error e => .error e
    | .ok ceW =>
        let lossBN := voxelMean ceW
        if self.reduction = "sum" then .ok (.scalar (totalSum lossBN))
        else if self.reduction = "none" then .ok (.tensor2 lossBN)
        else if self.reduction = "mean" then .ok (.scalar (meanAll lossBN))
        else .error (.unsupportedReduction self.reduction)

/-- Mapping a `sum` reduction over an already-produced `none` output. -/
def sumOfOutput : FocalOutput → FocalOutput
  | .tensor2 L => .scalar (totalSum L)
  | o => o

/-- Mapping a `mean` reduction over an already-produced `none` output. -/
noncomputable def meanOfOutput : FocalOutput → FocalOutput
  | .tensor2 L => .scalar (meanAll L)
  | o => o

section ListLemmas

variable {α : Type _} {β : Type _} {γ : Type _} {δ : Type _} {W : Type _}

lemma zipWith3_nil_left (f : α → β → γ → δ) (b : List β) (c : List γ) :
    zipWith3 f [] b c = [] := by
  cases b <;> cases c <;> rfl

lemma zipWith3_nil_mid (f : α → β → γ → δ) (a : List α) (c : List γ) :
    zipWith3 f a [] c = [] := by
  cases a <;> cases c <;> rfl

lemma zipWith3_nil_right (f : α → β → γ → δ) (a : List α) (b : List β) :
    zipWith3 f a b [] = [] := by
  cases a <;> cases b <;> rfl

/-- A three-way zip whose function returns its third argument unchanged on
values of the form `g x y` absorbs a `zipWith g` third list. -/
lemma zipWith3_absorb (h : α → β → γ → γ) (g : α → β → γ)
    (hh : ∀ x y, h x y (g x y) = g x y) :
    ∀ (a : List α) (b : List β),
      zipWith3 h a b (List.zipWith g a b) = List.zipWith g a b := by
  intro a
  induction a with
  | nil => intro b; cases b <;> rfl
  | cons x as ih =>
      intro b
      cases b with
      | nil => rfl
      | cons y bs => simp [zipWith3, hh, ih]

/-- Same absorption when the third list is a `zipWith g` post-composed with
an arbitrary per-entry function `K`. -/
lemma zipWith3_absorb_map (h : α → β → δ → δ) (g : α → β → γ) (K : γ → δ)
    (hh : ∀ x y, h x y (K (g x y)) = K (g x y)) :
    ∀ (a : List α) (b : List β),
      zipWith3 h a b ((List.zipWith g a b).map K) = (List.zipWith g a b).map K := by
  intro a
  induction a with
  | nil => intro b; cases b <;> rfl
  | cons x as ih =>
      intro b
      cases b with
      | nil => rfl
      | cons y bs => simp [zipWith3, hh, ih]

/-- Same absorption when the third list is a `zipWith g` zipped against a
weight list `cw` through `wm`. -/
lemma zipWith3_absorb_zip (h : α → β → δ → δ) (g : α → β → γ) (wm : W → γ → δ)
    (hh : ∀ w x y, h x y (wm w (g x y)) = wm w (g x y)) :
    ∀ (cw : List W) (a : List α) (b : List β),
      zipWith3 h a b (List.zipWith wm cw (List.zipWith g a b)) =
        List.zipWith wm cw (List.zipWith g a b) := by
  intro cw
  induction cw with
  | nil =>
      intro a b
      simp [zipWith3_nil_right]
  | cons w cws ih =>
      intro a b
      cases a with
      | nil => rfl
      | cons x as =>
          cases b with
          | nil => rfl
          | cons y bs => simp [zipWith3, hh, ih]

/-- With the identity in the third slot, `emap3` absorbs an `emap2`. -/
lemma emap3_emap2 (f : ℝ → ℝ → ℝ) (a b : List (List (List ℝ))) :
    emap3 (fun _ _ z => z) a b (emap2 f a b) = emap2 f a b := by
  unfold emap3 emap2
  apply zipWith3_absorb
  intro x y
  apply zipWith3_absorb
  intro u v
  apply zipWith3_absorb
  intro p q
  rfl

/-- With the identity in the third slot, `emap3` absorbs a weighted
`emap2`. -/
lemma emap3_mulWeight_emap2 (f : ℝ → ℝ → ℝ) (cw : List ℝ)
    (a b : List (List (List ℝ))) :
    emap3 (fun _ _ z => z) a b (mulWeight cw (emap2 f a b)) =
      mulWeight cw (emap2 f a b) := by
  unfold emap3 emap2 mulWeight
  apply zipWith3_absorb_map
  intro x y
  apply zipWith3_absorb_zip
  intro w u v
  apply zipWith3_absorb_map
  intro p q
  rfl

end ListLemmas

section ApplyWeightLemmas

/-- A successful `applyWeight` returns either the unweighted `ce` or a
`mulWeight` of it. -/
lemma applyWeight_ok (w : Option (ℝ ⊕ List ℝ)) (n : Nat)
    (ce d : List (List (List ℝ))) (h : applyWeight w n ce = .ok d) :
    d = ce ∨ ∃ cw, d = mulWeight cw ce := by
  rcases w with _ | w
  · exact Or.inl (Except.ok.inj h).symm
  · rcases w with s | l
    · unfold applyWeight at h
      by_cases hmin : tmin (List.replicate n s) < 0
      · simp [hmin] at h
      · simp [hmin] at h
        exact Or.inr ⟨List.replicate n s, h.symm⟩
    · unfold applyWeight at h
      by_cases hlen : l.length ≠ n
      · simp [hlen] at h
      · by_cases hmin : tmin l < 0
        · simp [hlen, hmin] at h
        · simp [hlen, hmin] at h
          exact Or.inr ⟨l, h.symm⟩

/-- `applyWeight` only fails with a weight-specific error. -/
lemma applyWeight_error (w : Option (ℝ ⊕ List ℝ)) (n : Nat)
    (ce : List (List (List ℝ))) (e : FocalError)
    (h : applyWeight w n ce = .error e) :
    e = .weightLength ∨ e = .weightRange := by
  rcases w with _ | w
  · simp [applyWeight] at h
  · rcases w with s | l
    · unfold applyWeight at h
      by_cases hmin : tmin (List.replicate n s) < 0
      · simp [hmin] at h
        exact Or.inr h.symm
      · simp [hmin] at h
    · unfold applyWeight at h
      by_cases hlen : l.length ≠ n
      · simp [hlen] at h
        exact Or.inl h.symm
      · by_cases hmin : tmin l < 0
        · simp [hlen, hmin] at h
          exact Or.inr h.symm
        · simp [hlen, hmin] at h

lemma tmin_replicate (n : Nat) (s : ℝ) :
    tmin (List.replicate n s) = if n = 0 then 0 else s := by
  cases n with
  | zero => rfl
  | succ m =>
      simp only [List.replicate, tmin, Nat.succ_ne_zero, if_false]
      induction m with
      | zero => rfl
      | succ k ih => simpa [List.replicate, min_self] using ih

end ApplyWeightLemmas

section IndexLemmas

variable {α : Type _} {β : Type _} {γ : Type _}

lemma getD_map_of_lt (f : α → β) (l : List α) (b : Nat) (d0 : β) (da : α)
    (hb : b < l.length) : (l.map f).getD b d0 = f (l.getD b da) := by
  induction l generalizing b with
  | nil => cases hb
  | cons x xs ih =>
      cases b with
      | zero => rfl
      | succ m =>
          simp only [List.map, List.getD_cons_succ]
          exact ih m (Nat.lt_of_succ_lt_succ hb)

lemma zipWith_getD_of_lt (f : α → β → γ) (as : List α) (bs : List β) (c : Nat)
    (d0 : γ) (da : α) (db : β) (ha : c < as.length) (hb : c < bs.length) :
    (List.zipWith f as bs).getD c d0 = f (as.getD c da) (bs.getD c db) := by
  induction as generalizing bs c with
  | nil => cases ha
  | cons x xs ih =>
      cases bs with
      | nil => cases hb
      | cons y ys =>
          cases c with
          | zero => rfl
          | succ m =>
              simp only [List.zipWith, List.getD_cons_succ]
              exact ih ys m (Nat.lt_of_succ_lt_succ ha) (Nat.lt_of_succ_lt_succ hb)

end IndexLemmas

section PipelineLemmas

lemma modFactor_zero (i t : ℝ) : modFactor 0 i t = 1 := by
  simp [modFactor]

lemma except_map_eq_error {ε α β : Type _} (f : α → β) (x : Except ε α) (e : ε)
    (h : x.map f = .error e) : x = .error e := by
  cases x with
  | error e2 =>
      simp only [Except.map, Except.error.injEq] at h
      rw [h]
  | ok a => simp [Except.map] at h

/-- `forward` is the voxel-mean loss tensor followed by the reduction
dispatch. -/
lemma forward_bind_voxelMeanLoss (self : FocalLoss) (input target : Tensor) :
    forward self input target =
      (voxelMeanLoss self input target).bind (reduceStep self.reduction) := by
  simp only [forward, voxelMeanLoss, reduceStep]
  by_cases hsh : shape (preprocess self input target).2 ≠
      shape (preprocess self input target).1
  · rw [if_pos hsh, if_pos hsh]
    rfl
  · rw [if_neg hsh, if_neg hsh]
    rcases hw : applyWeight self.weight (reshape3 (preprocess self input target).2).channels
        (emap2 stableBCE (reshape3 (preprocess self input target).1).data
          (reshape3 (preprocess self input target).2).data) with e | ceW
    · rfl
    · rfl

/-- `voxelMeanLoss` does not read the stored reduction mode. -/
lemma voxelMeanLoss_reduction (self : FocalLoss) (r : String)
    (input target : Tensor) :
    voxelMeanLoss { self with reduction := r } input target =
      voxelMeanLoss self input target := rfl

/-- `voxelMeanLoss` never fails with the unsupported-reduction error. -/
lemma voxelMeanLoss_not_unsupported (self : FocalLoss) (input target : Tensor)
    (e : FocalError) (h : voxelMeanLoss self input target = .error e) :
    ∀ s, e ≠ .unsupportedReduction s := by
  intro s
  simp only [voxelMeanLoss] at h
  by_cases hsh : shape (preprocess self input target).2 ≠
      shape (preprocess self input target).1
  · rw [if_pos hsh] at h
    simp only [Except.error.injEq] at h
    rw [← h]
    intro hc
    cases hc
  · rw [if_neg hsh] at h
    have h2 := except_map_eq_error _ _ _ h
    rcases applyWeight_error _ _ _ _ h2 with he | he <;> rw [he] <;>
      intro hc <;> cases hc

end PipelineLemmas

/-- C1: for every logit `i` and label `t ∈ [0,1]`, the stable binary
cross-entropy `i - i*t + max_val + log(exp(-max_val) + exp(-i - max_val))`
with `max_val = max(-i, 0)` equals the reference definition
`-[t*log(sigmoid(i)) + (1-t)*log(1-sigmoid(i))]`. -/
theorem stableBCE_eq_bceRef (i t : ℝ) (h0 : 0 ≤ t) (h1 : t ≤ 1) :
    stableBCE i t = bceRef i t := by
  rw [stableBCE_eq]
  unfold bceRef
  rw [log_sigmoid_eq, log_one_sub_sigmoid]
  ring

/-- Witness for C1 at `i = 0`, `t = 0`. -/
theorem stableBCE_eq_bceRef_witness :
    (0 : ℝ) ≤ 0 ∧ (0 : ℝ) ≤ 1 ∧ stableBCE 0 0 = bceRef 0 0 :=
  ⟨le_refl 0, by norm_num, stableBCE_eq_bceRef 0 0 (le_refl 0) (by norm_num)⟩

/-- C10: for every logit `i`, label `t ∈ [0,1]`, `gamma ≥ 0` and weight
`w ≥ 0`, the focal modulation factor lies in `(0, 1]`, the stable binary
cross-entropy is nonnegative, and the modulated per-element loss is bounded
by its weighted cross-entropy term. -/
theorem modFactor_bounds (i t gamma w : ℝ) (h0 : 0 ≤ t) (h1 : t ≤ 1)
    (hg : 0 ≤ gamma) (hw : 0 ≤ w) :
    (0 < modFactor gamma i t ∧ modFactor gamma i t ≤ 1) ∧
      0 ≤ stableBCE i t ∧
      modFactor gamma i t * (w * stableBCE i t) ≤ w * stableBCE i t := by
  have hce : 0 ≤ stableBCE i t := stableBCE_nonneg i h0 h1
  have hle : modFactor gamma i t ≤ 1 := modFactor_le_one hg i t
  exact ⟨⟨modFactor_pos gamma i t, hle⟩, hce,
    mul_le_of_le_one_left (mul_nonneg hw hce) hle⟩

/-- Witness for C10 at `i = 0`, `t = 0`, `gamma = 2`, `w = 1`. -/
theorem modFactor_bounds_witness :
    (0 : ℝ) ≤ 0 ∧ (0 : ℝ) ≤ 1 ∧ (0 : ℝ) ≤ 2 ∧ (0 : ℝ) ≤ 1 ∧
      ((0 < modFactor 2 0 0 ∧ modFactor 2 0 0 ≤ 1) ∧
        0 ≤ stableBCE 0 0 ∧
        modFactor 2 0 0 * (1 * stableBCE 0 0) ≤ 1 * stableBCE 0 0) :=
  ⟨le_refl 0, by norm_num, by norm_num, by norm_num,
    modFactor_bounds 0 0 2 1 (le_refl 0) (by norm_num) (by norm_num) (by norm_num)⟩

lemma except_error_bind {ε α β : Type _} (e : ε) (f : α → Except ε β) :
    (Except.error e : Except ε α).bind f = .error e := rfl

lemma except_ok_bind {ε α β : Type _} (a : α) (f : α → Except ε β) :
    (Except.ok a : Except ε α).bind f = f a := rfl

lemma reduceStep_none (L : List (List ℝ)) :
    reduceStep "none" L = .ok (.tensor2 L) := rfl

lemma reduceStep_sum (L : List (List ℝ)) :
    reduceStep "sum" L = .ok (.scalar (totalSum L)) := rfl

lemma reduceStep_mean (L : List (List ℝ)) :
    reduceStep "mean" L = .ok (.scalar (meanAll L)) := rfl

lemma voxelMean_length (d : List (List (List ℝ))) (k : Nat) :
    (voxelMean d).length = d.length ∧
      ((voxelMean d).getD k []).length = (d.getD k []).length := by
  simp only [voxelMean]
  refine ⟨List.length_map _ _, ?_⟩
  by_cases hk : k < d.length
  · rw [getD_map_of_lt _ _ _ _ [] hk]
    exact List.length_map _ _
  · have hk2 : d.length ≤ k := Nat.le_of_not_lt hk
    rw [List.getD_eq_default _ _ hk2,
      List.getD_eq_default _ _ (by rw [List.length_map]; exact hk2)]
    rfl

/-- C2: whatever the configured reduction mode, `forward` first averages the
per-element focal loss over the voxel axis, producing the `[B, N]` tensor
`voxelMeanLoss` (the voxel mean keeps the batch and class axes and removes
only the voxel axis), and dispatches the final reduction on that tensor
alone; under `reduction = "none"` that tensor is returned unchanged. -/
theorem forward_voxel_mean_first :
    (∀ (self : FocalLoss) (input target : Tensor),
        forward self input target =
          (voxelMeanLoss self input target).bind (reduceStep self.reduction)) ∧
      (∀ (d : List (List (List ℝ))) (k : Nat),
        (voxelMean d).length = d.length ∧
          ((voxelMean d).getD k []).length = (d.getD k []).length) ∧
      ∀ L, reduceStep "none" L = .ok (.tensor2 L) :=
  ⟨forward_bind_voxelMeanLoss, voxelMean_length, reduceStep_none⟩

/-- C3: for a fixed prediction, target and configuration, the `sum` output
is the elementwise sum of the `none` output, and the `mean` output is the
elementwise average (sum divided by element count) of the `none` output. -/
theorem forward_sum_mean_vs_none (self : FocalLoss) (input target : Tensor) :
    forward { self with reduction := "sum" } input target =
        (forward { self with reduction := "none" } input target).map sumOfOutput ∧
      forward { self with reduction := "mean" } input target =
        (forward { self with reduction := "none" } input target).map meanOfOutput := by
  simp only [forward_bind_voxelMeanLoss, voxelMeanLoss_reduction]
  rcases hv : voxelMeanLoss self input target with e | L
  · exact ⟨rfl, rfl⟩
  · exact ⟨rfl, rfl⟩

/-- C4: whenever prediction and target still differ in shape after the
preprocessing steps, `forward` fails with a shape-mismatch error carrying
both shapes, and no loss value is returned. -/
theorem forward_shape_mismatch (self : FocalLoss) (input target : Tensor)
    (h : shape (preprocess self input target).2 ≠
      shape (preprocess self input target).1) :
    forward self input target =
      .error (.shapeMismatch (shape (preprocess self input target).2)
        (shape (preprocess self input target).1)) := by
  rw [forward_bind_voxelMeanLoss]
  simp only [voxelMeanLoss]
  rw [if_pos h]
  rfl

/-- Witness for C4: a two-channel prediction against a one-channel target
under the default configuration. -/
theorem forward_shape_mismatch_witness :
    shape (preprocess ⟨true, false, 2, none, "mean"⟩ ⟨0, 2, [1], []⟩
          ⟨0, 1, [1], []⟩).2 ≠
        shape (preprocess ⟨true, false, 2, none, "mean"⟩ ⟨0, 2, [1], []⟩
          ⟨0, 1, [1], []⟩).1 ∧
      forward ⟨true, false, 2, none, "mean"⟩ ⟨0, 2, [1], []⟩ ⟨0, 1, [1], []⟩ =
        .error (.shapeMismatch
          (shape (preprocess ⟨true, false, 2, none, "mean"⟩ ⟨0, 2, [1], []⟩
            ⟨0, 1, [1], []⟩).2)
          (shape (preprocess ⟨true, false, 2, none, "mean"⟩ ⟨0, 2, [1], []⟩
            ⟨0, 1, [1], []⟩).1)) :=
  ⟨by decide, forward_shape_mismatch _ _ _ (by decide)⟩

lemma reshape3_channels (t : Tensor) : (reshape3 t).channels = t.channels := rfl

/-- C5: a weight sequence whose length differs from the number of scored
classes makes `forward` fail with the length-mismatch error; a negative
weight value (the scalar, or any vector entry, on a nonempty class axis)
makes it fail with the value-range error; a valid weight is accepted and
multiplied elementwise into `ce`, class by class. -/
theorem forward_weight_validation (self : FocalLoss) (input target : Tensor)
    (hsh : shape (preprocess self input target).2 =
      shape (preprocess self input target).1) :
    (∀ l, self.weight = some (Sum.inr l) →
        l.length ≠ (preprocess self input target).2.channels →
        forward self input target = .error .weightLength) ∧
      (∀ s, self.weight = some (Sum.inl s) → s < 0 →
        0 < (preprocess self input target).2.channels →
        forward self input target = .error .weightRange) ∧
      (∀ l, self.weight = some (Sum.inr l) →
        l.length = (preprocess self input target).2.channels → tmin l < 0 →
        forward self input target = .error .weightRange) ∧
      (∀ (s : ℝ) (n : Nat) (d : List (List (List ℝ))), 0 ≤ s →
        applyWeight (some (Sum.inl s)) n d = .ok (mulWeight (List.replicate n s) d)) ∧
      (∀ (l : List ℝ) (n : Nat) (d : List (List (List ℝ))), l.length = n →
        0 ≤ tmin l → applyWeight (some (Sum.inr l)) n d = .ok (mulWeight l d)) ∧
      (∀ (cw : List ℝ) (d : List (List (List ℝ))) (b c : Nat),
        b < d.length → c < cw.length → c < (d.getD b []).length →
        ((mulWeight cw d).getD b []).getD c [] =
          ((d.getD b []).getD c []).map fun x => x * cw.getD c 0) := by
  refine ⟨?_, ?_, ?_, ?_, ?_, ?_⟩
  · intro l hwl hlen
    rw [forward_bind_voxelMeanLoss]
    simp only [voxelMeanLoss]
    rw [if_neg (not_ne_iff.mpr hsh), hwl]
    simp only [applyWeight, reshape3_channels]
    rw [if_pos hlen]
    rfl
  · intro s hws hneg hn
    rw [forward_bind_voxelMeanLoss]
    simp only [voxelMeanLoss]
    rw [if_neg (not_ne_iff.mpr hsh), hws]
    simp only [applyWeight, reshape3_channels]
    have hmin : tmin (List.replicate
        (preprocess self input target).2.channels s) < 0 := by
      rw [tmin_replicate, if_neg (Nat.pos_iff_ne_zero.mp hn)]
      exact hneg
    rw [if_pos hmin]
    rfl
  · intro l hwl hlen hmin
    rw [forward_bind_voxelMeanLoss]
    simp only [voxelMeanLoss]
    rw [if_neg (not_ne_iff.mpr hsh), hwl]
    simp only [applyWeight, reshape3_channels]
    rw [if_neg (not_ne_iff.mpr hlen), if_pos hmin]
    rfl
  · intro s n d hs
    simp only [applyWeight]
    have hmin : ¬tmin (List.replicate n s) < 0 := by
      rw [not_lt, tmin_replicate]
      rcases Nat.eq_zero_or_pos n with h0 | h0
      · rw [if_pos h0]
      · rw [if_neg (Nat.pos_iff_ne_zero.mp h0)]
        exact hs
    rw [if_neg hmin]
  · intro l n d hlen hmin
    simp only [applyWeight]
    rw [if_neg (not_ne_iff.mpr hlen), if_neg (not_lt.mpr hmin)]
  · intro cw d b c hb hc hch
    unfold mulWeight
    rw [getD_map_of_lt _ _ _ _ [] hb]
    rw [zipWith_getD_of_lt _ _ _ _ _ 0 [] hc hch]

/-- Witness for C5: a wrong-length vector, a negative scalar, a negative
vector entry, and a valid scalar, vector and per-class product, each on a
concrete input. -/
theorem forward_weight_validation_witness :
    forward ⟨true, false, 2, some (Sum.inr [1, 2]), "mean"⟩ ⟨0, 1, [1], []⟩
        ⟨0, 1, [1], []⟩ = .error .weightLength ∧
      forward ⟨true, false, 2, some (Sum.inl (-1)), "mean"⟩ ⟨0, 1, [1], []⟩
        ⟨0, 1, [1], []⟩ = .error .weightRange ∧
      forward ⟨true, false, 2, some (Sum.inr [-1]), "mean"⟩ ⟨0, 1, [1], []⟩
        ⟨0, 1, [1], []⟩ = .error .weightRange ∧
      applyWeight (some (Sum.inl 2)) 1 [[[5]]] =
        .ok (mulWeight (List.replicate 1 2) [[[5]]]) ∧
      applyWeight (some (Sum.inr [2])) 1 [[[5]]] = .ok (mulWeight [2] [[[5]]]) ∧
      ((mulWeight [2] [[[5]]]).getD 0 []).getD 0 [] =
        (([[[(5 : ℝ)]]].getD 0 []).getD 0 []).map fun x => x * [(2 : ℝ)].getD 0 0 :=
  ⟨(forward_weight_validation ⟨true, false, 2, some (Sum.inr [1, 2]), "mean"⟩
      ⟨0, 1, [1], []⟩ ⟨0, 1, [1], []⟩ rfl).1 [1, 2] rfl (by decide),
    (forward_weight_validation ⟨true, false, 2, some (Sum.inl (-1)), "mean"⟩
      ⟨0, 1, [1], []⟩ ⟨0, 1, [1], []⟩ rfl).2.1 (-1) rfl (by norm_num) (by decide),
    (forward_weight_validation ⟨true, false, 2, some (Sum.inr [-1]), "mean"⟩
      ⟨0, 1, [1], []⟩ ⟨0, 1, [1], []⟩ rfl).2.2.1 [-1] rfl (by decide)
      (by norm_num [tmin]),
    (forward_weight_validation ⟨true, false, 2, some (Sum.inl 2), "mean"⟩
      ⟨0, 1, [1], []⟩ ⟨0, 1, [1], []⟩ rfl).2.2.2.1 2 1 [[[5]]] (by norm_num),
    (forward_weight_validation ⟨true, false, 2, some (Sum.inr [2]), "mean"⟩
      ⟨0, 1, [1], []⟩ ⟨0, 1, [1], []⟩ rfl).2.2.2.2.1 [2] 1 [[[5]]] rfl
      (by norm_num [tmin]),
    (forward_weight_validation ⟨true, false, 2, some (Sum.inr [2]), "mean"⟩
      ⟨0, 1, [1], []⟩ ⟨0, 1, [1], []⟩ rfl).2.2.2.2.2 [2] [[[5]]] 0 0
      (by decide) (by decide) (by decide)⟩

/-- C6: on a single-channel prediction, `to_onehot_y = true` and
`include_background = false` are warn-and-skip no-ops: the result equals the
result under the default flags on the same input. -/
theorem forward_single_channel_noop (ib toh : Bool) (gamma : ℝ)
    (w : Option (ℝ ⊕ List ℝ)) (r : String) (input target : Tensor)
    (h : input.channels = 1) :
    forward ⟨ib, toh, gamma, w, r⟩ input target =
      forward ⟨true, false, gamma, w, r⟩ input target := by
  have hpre : preprocess ⟨ib, toh, gamma, w, r⟩ input target =
      preprocess ⟨true, false, gamma, w, r⟩ input target := by
    simp [preprocess, h]
  simp only [forward, hpre]

/-- Witness for C6: both flags set on a single-channel input. -/
theorem forward_single_channel_noop_witness :
    (⟨0, 1, [1], []⟩ : Tensor).channels = 1 ∧
      forward ⟨false, true, 2, none, "mean"⟩ ⟨0, 1, [1], []⟩ ⟨0, 1, [1], []⟩ =
        forward ⟨true, false, 2, none, "mean"⟩ ⟨0, 1, [1], []⟩ ⟨0, 1, [1], []⟩ :=
  ⟨rfl, forward_single_channel_noop false true 2 none "mean" _ _ rfl⟩

/-- C7: with `gamma = 0` the focal modulation factor is identically 1 and
`forward` computes exactly the class-weighted binary cross-entropy with
logits (same preprocessing, weighting and reduction). -/
theorem forward_gamma_zero_eq_bce (self : FocalLoss) (input target : Tensor)
    (hg : self.gamma = 0) :
    forward self input target = bceForward self input target := by
  simp only [forward, bceForward]
  by_cases hsh : shape (preprocess self input target).2 ≠
      shape (preprocess self input target).1
  · rw [if_pos hsh, if_pos hsh]
  · rw [if_neg hsh, if_neg hsh]
    rcases hw : applyWeight self.weight
        (reshape3 (preprocess self input target).2).channels
        (emap2 stableBCE (reshape3 (preprocess self input target).1).data
          (reshape3 (preprocess self input target).2).data) with e | ceW
    · rfl
    · have habs : emap3 (fun iv tv cv => modFactor self.gamma iv tv * cv)
          (reshape3 (preprocess self input target).1).data
          (reshape3 (preprocess self input target).2).data ceW = ceW := by
        rw [hg]
        simp only [modFactor_zero, one_mul]
        rcases applyWeight_ok _ _ _ _ hw with hid | ⟨cw, hcw⟩
        · rw [hid]
          exact emap3_emap2 _ _ _
        · rw [hcw]
          exact emap3_mulWeight_emap2 _ _ _ _
      exact congrArg (fun D =>
        if self.reduction = "sum" then
          Except.ok (FocalOutput.scalar (totalSum (voxelMean D)))
        else if self.reduction = "none" then
          Except.ok (FocalOutput.tensor2 (voxelMean D))
        else if self.reduction = "mean" then
          Except.ok (FocalOutput.scalar (meanAll (voxelMean D)))
        else Except.error (FocalError.unsupportedReduction self.reduction)) habs

/-- Witness for C7: a `gamma = 0` configuration on a single-channel input. -/
theorem forward_gamma_zero_eq_bce_witness :
    (⟨true, false, 0, none, "mean"⟩ : FocalLoss).gamma = 0 ∧
      forward ⟨true, false, 0, none, "mean"⟩ ⟨0, 1, [1], []⟩ ⟨0, 1, [1], []⟩ =
        bceForward ⟨true, false, 0, none, "mean"⟩ ⟨0, 1, [1], []⟩ ⟨0, 1, [1], []⟩ :=
  ⟨rfl, forward_gamma_zero_eq_bce _ _ _ rfl⟩

/-- C9: any instance built through the constructor has a reduction mode
validated against the `LossReduction` enum, so `forward` can never raise the
unsupported-reduction error. -/
theorem mkFocalLoss_no_unsupported_reduction (ib toh : Bool) (gamma : ℝ)
    (w : Option (ℝ ⊕ List ℝ)) (r : String) (self : FocalLoss)
    (h : mkFocalLoss ib toh gamma w r = some self) :
    ∀ (input target : Tensor) (s : String),
      forward self input target ≠ .error (.unsupportedReduction s) := by
  have hr : self.reduction = "none" ∨ self.reduction = "mean" ∨
      self.reduction = "sum" := by
    simp only [mkFocalLoss] at h
    by_cases hc : r = "none" ∨ r = "mean" ∨ r = "sum"
    · rw [if_pos hc] at h
      injection h with h2
      rw [← h2]
      exact hc
    · rw [if_neg hc] at h
      cases h
  intro input target s hcontra
  rw [forward_bind_voxelMeanLoss] at hcontra
  rcases hv : voxelMeanLoss self input target with e | L
  · rw [hv, except_error_bind] at hcontra
    simp only [Except.error.injEq] at hcontra
    exact voxelMeanLoss_not_unsupported self input target e hv s hcontra
  · rw [hv, except_ok_bind] at hcontra
    rcases hr with h1 | h1 | h1 <;> rw [h1] at hcontra <;>
      simp only [reduceStep_none, reduceStep_sum, reduceStep_mean] at hcontra <;>
      cases hcontra

/-- Witness for C9: a constructed instance run on a small input, with the
unsupported-reduction error instantiated at an arbitrary tag. -/
theorem mkFocalLoss_no_unsupported_reduction_witness :
    mkFocalLoss true false 2 none "mean" =
        some ⟨true, false, 2, none, "mean"⟩ ∧
      forward ⟨true, false, 2, none, "mean"⟩ ⟨0, 1, [1], []⟩ ⟨0, 1, [1], []⟩ ≠
        .error (.unsupportedReduction "batch") :=
  ⟨rfl, mkFocalLoss_no_unsupported_reduction true false 2 none "mean" _ rfl
    ⟨0, 1, [1], []⟩ ⟨0, 1, [1], []⟩ "batch"⟩

end Focal
